import Mathlib

/-!
# Verification of the exploded-view layout engine and hierarchical state store

Shallow embedding of the viewer-state store
(`src/viewer/features/viewerState/state/viewerStateStore.js`) and of the
explosion-target pipeline
(`src/viewer/three/features/explosion/domain/buildExplosionTargets.js`,
`explosionMath.js`, `overlapResolution.js`, `config/constants.js`).

Scene objects (`THREE.Object3D`) are embedded as a finite tree `Obj`; the
`uuid -> Object3D` map built by the model loader (`scene.traverse`) is
represented by the tree itself (keys = preorder traversal ids).  Sets of
uuids (the JS `Set` of hidden objects) are embedded as `Finset String`.
JS numbers are embedded as exact rationals/reals; the float `NaN`/`Infinity`
cases handled by the store are embedded via `JSNumber`.
-/

namespace Viewer

/-- A scene-graph object: uuid, display name, `type === "Mesh"` flag, and
ordered children.  Mirrors the parts of `THREE.Object3D` that the store and
the explosion pipeline read. -/
inductive Obj : Type where
  | node (uuid name : String) (isMesh : Bool) (children : List Obj)
deriving Repr

def Obj.uuid : Obj → String
  | .node u _ _ _ => u

def Obj.name : Obj → String
  | .node _ n _ _ => n

def Obj.isMesh : Obj → Bool
  | .node _ _ m _ => m

def Obj.children : Obj → List Obj
  | .node _ _ _ c => c

mutual
/-- `obj.traverse` visiting order: the object itself, then each child subtree.
Collects every visited uuid (used for descendant collection and for
`Object.keys(objectMapRef)`). -/
def Obj.traverseIds : Obj → List String
  | .node u _ _ cs => u :: traverseIdsList cs

def traverseIdsList : List Obj → List String
  | [] => []
  | c :: cs => c.traverseIds ++ traverseIdsList cs
end

mutual
/-- uuids of all mesh nodes in the subtree, in `traverse` order
(the loop body of `buildMeshDescendantsCache` for non-mesh entries, and
`getMeshNodes` restricted to uuids). -/
def Obj.meshUuids : Obj → List String
  | .node u _ m cs => (if m then [u] else []) ++ meshUuidsList cs

def meshUuidsList : List Obj → List String
  | [] => []
  | c :: cs => c.meshUuids ++ meshUuidsList cs
end

mutual
/-- Look up a uuid in the object map; also returns the uuids of all ancestors
of the found node (the `parent` chain walked by the isolation operations). -/
def lookupWithAnc : Obj → List String → String → Option (Obj × List String)
  | .node u n m cs, anc, id =>
    if u = id then some (.node u n m cs, anc)
    else lookupListWithAnc cs (u :: anc) id

def lookupListWithAnc : List Obj → List String → String → Option (Obj × List String)
  | [], _, _ => none
  | c :: cs, anc, id =>
    match lookupWithAnc c anc id with
    | some r => some r
    | none => lookupListWithAnc cs anc id
end

/-- `objectMapRef[id]`, together with the ancestor chain of the found node. -/
def lookup (root : Obj) (id : String) : Option (Obj × List String) :=
  lookupWithAnc root [] id

/-- The descendant-mesh cache entry built by `buildMeshDescendantsCache`:
a mesh maps to `[uuid]`, anything else to the mesh uuids collected by
`obj.traverse`. -/
def meshDescendantsCacheEntry (o : Obj) : List String :=
  if o.isMesh then [o.uuid] else o.meshUuids

/-- Store query `getDescendantMeshIds`: `meshDescendantsCacheRef[id] || []`. -/
def getDescendantMeshIds (root : Obj) (id : String) : List String :=
  match lookup root id with
  | some (o, _) => meshDescendantsCacheEntry o
  | none => []

/-- JS truthiness of a nullable string (`null` and `""` are falsy). -/
def truthyStr : Option String → Bool
  | none => false
  | some s => !(s == "")

/-- `obj.name || obj.uuid || "(unnamed)"`. -/
def displayName (o : Obj) : String :=
  if o.name ≠ "" then o.name else if o.uuid ≠ "" then o.uuid else "(unnamed)"

/-- A JS number as seen by `setExplosionFactor`: either finite (embedded as an
exact rational) or one of the non-finite values. -/
inductive JSNumber : Type where
  | nan
  | posInf
  | negInf
  | fin (q : ℚ)

/-- The state held by `viewerStateStore` (the serializable fields). -/
structure StoreState where
  isLoading : Bool
  selectedItem : Option String
  selectedId : Option String
  selectedIds : List String
  items : List String
  hiddenObjects : Finset String
  isolationMode : Bool
  individualIsolatedId : Option String
  explosionFactor : ℚ
deriving DecidableEq

/-- The store's initial state. -/
def initialState : StoreState :=
  { isLoading := true
    selectedItem := none
    selectedId := none
    selectedIds := []
    items := []
    hiddenObjects := ∅
    isolationMode := false
    individualIsolatedId := none
    explosionFactor := 0 }

/-- `setExplosionFactor`: coerce, default non-finite to `0`, clamp to `[0,1]`. -/
def setExplosionFactor (value : JSNumber) (s : StoreState) : StoreState :=
  let safeValue : ℚ :=
    match value with
    | .fin q => min (max q 0) 1
    | _ => 0
  { s with explosionFactor := safeValue }

/-- `toggleVisibility(id)`: no-op for unknown ids; otherwise flips the hidden
membership of the object and all uuids visited by `obj.traverse`. -/
def toggleVisibility (root : Obj) (id : String) (s : StoreState) : StoreState :=
  match lookup root id with
  | none => s
  | some (o, _) =>
    let descendants := o.traverseIds
    let hiddenObjects :=
      if id ∈ s.hiddenObjects then
        descendants.foldl (fun h u => h.erase u) s.hiddenObjects
      else
        descendants.foldl (fun h u => insert u h) s.hiddenObjects
    { s with hiddenObjects := hiddenObjects }

/-- The hidden set built when entering an isolation mode for `id`: every key
of the object map that is neither in the subtree of `id` nor an ancestor of
`id`.  When `id` is not in the map the set stays the fresh empty set. -/
def isolationHidden (root : Obj) (id : String) : Finset String :=
  match lookup root id with
  | none => ∅
  | some (o, anc) =>
    let visibleUuids := o.traverseIds ++ anc
    (root.traverseIds.filter (fun u => !(visibleUuids.contains u))).toFinset

/-- `toggleIsolationMode()`. -/
def toggleIsolationMode (root : Obj) (s : StoreState) : StoreState :=
  if !s.isolationMode && truthyStr s.selectedId then
    { s with
        hiddenObjects := isolationHidden root (s.selectedId.getD "")
        isolationMode := true
        individualIsolatedId := none }
  else
    { s with
        hiddenObjects := ∅
        isolationMode := false
        individualIsolatedId := none }

/-- `showAll()`. -/
def showAll (s : StoreState) : StoreState :=
  { s with
      hiddenObjects := ∅
      isolationMode := false
      individualIsolatedId := none }

/-- `toggleIndividualIsolation(id)`. -/
def toggleIndividualIsolation (root : Obj) (id : String) (s : StoreState) :
    StoreState :=
  if s.individualIsolatedId = some id then
    { s with hiddenObjects := ∅, individualIsolatedId := none }
  else
    { s with hiddenObjects := isolationHidden root id
             individualIsolatedId := some id }

/-- `setSelectedObject(obj)` (null clears the selection). -/
def setSelectedObject (obj : Option Obj) (s : StoreState) : StoreState :=
  match obj with
  | none => { s with selectedItem := none, selectedId := none, selectedIds := [] }
  | some o =>
    { s with
        selectedItem := some (displayName o)
        selectedId := some o.uuid
        selectedIds := [o.uuid] }

/-- `setSelectedById(id)`. -/
def setSelectedById (root : Obj) (id : String) (s : StoreState) : StoreState :=
  match lookup root id with
  | none => { s with selectedId := none, selectedItem := none, selectedIds := [] }
  | some (o, _) =>
    { s with
        selectedItem := some (displayName o)
        selectedId := some id
        selectedIds := getDescendantMeshIds root id }

/-- `clearSelection()`. -/
def clearSelection (s : StoreState) : StoreState :=
  { s with selectedItem := none, selectedId := none, selectedIds := [] }

/-- Concrete two-node scene used for witnesses and counterexamples: a group
`"R"` whose single child `"M"` is a mesh. -/
def exRoot : Obj := .node "R" "Root" false [.node "M" "MeshA" true []]

theorem foldl_insert_eq_union (l : List String) (init : Finset String) :
    l.foldl (fun h u => insert u h) init = init ∪ l.toFinset := by
  induction l generalizing init with
  | nil => simp
  | cons a l ih =>
    simp only [List.foldl_cons, ih, List.toFinset_cons]
    ext x
    simp only [Finset.mem_union, Finset.mem_insert, List.mem_toFinset]
    tauto

theorem foldl_erase_eq_sdiff (l : List String) (init : Finset String) :
    l.foldl (fun h u => h.erase u) init = init \ l.toFinset := by
  induction l generalizing init with
  | nil => simp
  | cons a l ih =>
    simp only [List.foldl_cons, ih, List.toFinset_cons]
    ext x
    simp only [Finset.mem_sdiff, Finset.mem_erase, Finset.mem_insert,
      List.mem_toFinset]
    tauto

mutual
theorem lookupWithAnc_uuid (o : Obj) (anc : List String) (id : String)
    (r : Obj × List String) (h : lookupWithAnc o anc id = some r) :
    r.1.uuid = id := by
  cases o with
  | node u n m cs =>
    rw [lookupWithAnc] at h
    split at h
    · cases h
      simpa [Obj.uuid] using ‹u = id›
    · exact lookupListWithAnc_uuid cs (u :: anc) id r h

theorem lookupListWithAnc_uuid (l : List Obj) (anc : List String) (id : String)
    (r : Obj × List String) (h : lookupListWithAnc l anc id = some r) :
    r.1.uuid = id := by
  cases l with
  | nil => simp [lookupListWithAnc] at h
  | cons c cs =>
    rw [lookupListWithAnc] at h
    split at h
    · cases h
      exact lookupWithAnc_uuid c anc id _ ‹_›
    · exact lookupListWithAnc_uuid cs anc id r h
end

theorem lookup_uuid (root : Obj) (id : String) (o : Obj) (anc : List String)
    (h : lookup root id = some (o, anc)) : o.uuid = id :=
  lookupWithAnc_uuid root [] id (o, anc) h

theorem uuid_mem_traverseIds (o : Obj) : o.uuid ∈ o.traverseIds := by
  cases o with
  | node u n m cs => simp [Obj.uuid, Obj.traverseIds]

/-- C1: selecting a non-leaf group through `setSelectedObject` stores
`selectedIds = [group uuid]` although the descendant-leaf cache entry for the
group is the list of its mesh descendants (`["M"]` here): the code contradicts
its own documentation ("Expands selection to all descendant meshes if parent
was clicked"), so the claimed invariant fails at this input. -/
theorem C1_selectedIds_code_bug :
    (setSelectedObject (some exRoot) initialState).selectedId = some "R" ∧
    (setSelectedObject (some exRoot) initialState).selectedIds = ["R"] ∧
    getDescendantMeshIds exRoot "R" = ["M"] ∧
    (setSelectedObject (some exRoot) initialState).selectedIds ≠
      getDescendantMeshIds exRoot "R" ∧
    (setSelectedById exRoot "R" initialState).selectedIds =
      getDescendantMeshIds exRoot "R" :=
  ⟨rfl, rfl, rfl, by decide, rfl⟩

/-- C2 (amended): on an id absent from the object map, `toggleVisibility` is a
no-op and never throws, but `toggleIndividualIsolation` is not a no-op: when
the unknown id is not the currently isolated one it resets `hiddenObjects` to
the empty set and records the unknown id as `individualIsolatedId`, leaving
every other field unchanged. -/
theorem C2_unknown_id (root : Obj) (id : String) (s : StoreState)
    (h : lookup root id = none) (hni : s.individualIsolatedId ≠ some id) :
    toggleVisibility root id s = s ∧
    toggleIndividualIsolation root id s =
      { s with hiddenObjects := ∅, individualIsolatedId := some id } := by
  constructor
  · simp [toggleVisibility, h]
  · simp [toggleIndividualIsolation, hni, isolationHidden, h]

theorem C2_unknown_id_witness :
    toggleVisibility exRoot "zz" initialState = initialState ∧
    toggleIndividualIsolation exRoot "zz" initialState =
      { initialState with hiddenObjects := ∅, individualIsolatedId := some "zz" } :=
  C2_unknown_id exRoot "zz" initialState rfl (by decide)

/-- C2 counterexample to the claim as stated: starting from the reachable
state in which mesh `"M"` has been hidden, calling `toggleIndividualIsolation`
with the unknown id `"zz"` changes the store (it clears `hiddenObjects` and
sets `individualIsolatedId`), so the operation is not a no-op. -/
theorem C2_not_noop_counterexample :
    (toggleIndividualIsolation exRoot "zz"
        (toggleVisibility exRoot "M" initialState)).hiddenObjects ≠
      (toggleVisibility exRoot "M" initialState).hiddenObjects ∧
    (toggleIndividualIsolation exRoot "zz"
        (toggleVisibility exRoot "M" initialState)).individualIsolatedId =
      some "zz" := by
  constructor
  · decide
  · rfl

/-- C3 (amended): `toggleIsolationMode()` with no selection is not a no-op in
general; it behaves exactly like `showAll()`: it clears the Hidden Set, sets
`isolationMode := false` and `individualIsolatedId := none` (so it is a no-op
only on states where those three fields are already clear). -/
theorem C3_no_selection_acts_as_showAll (root : Obj) (s : StoreState)
    (h : s.selectedId = none) : toggleIsolationMode root s = showAll s := by
  simp [toggleIsolationMode, showAll, h, truthyStr]

theorem C3_no_selection_witness :
    toggleIsolationMode exRoot initialState = showAll initialState :=
  C3_no_selection_acts_as_showAll exRoot initialState rfl

/-- C3 counterexample: from the reachable no-selection state in which `"M"`
is hidden, `toggleIsolationMode()` empties the Hidden Set, so it is not a
no-op. -/
theorem C3_not_noop_counterexample :
    toggleIsolationMode exRoot (toggleVisibility exRoot "M" initialState) ≠
      toggleVisibility exRoot "M" initialState := by
  decide

/-- C4 (amended): `toggleIsolationMode()` always leaves
`individualIsolatedId = null` (entering global isolation clears individual
isolation), but `toggleIndividualIsolation` never modifies `isolationMode`,
so entering individual isolation does not clear global isolation. -/
theorem C4_one_direction_only :
    (∀ (root : Obj) (s : StoreState),
        (toggleIsolationMode root s).individualIsolatedId = none) ∧
    (∀ (root : Obj) (id : String) (s : StoreState),
        (toggleIndividualIsolation root id s).isolationMode = s.isolationMode) := by
  constructor
  · intro root s
    unfold toggleIsolationMode
    split <;> rfl
  · intro root id s
    unfold toggleIndividualIsolation
    split <;> rfl

/-- C4 counterexample: the state reached by `setSelectedById "M"`, then
`toggleIsolationMode()`, then `toggleIndividualIsolation "R"` has
`isolationMode = true` and `individualIsolatedId = some "R"` simultaneously,
refuting the claimed mutual-exclusion invariant. -/
theorem C4_both_modes_counterexample :
    (toggleIndividualIsolation exRoot "R"
        (toggleIsolationMode exRoot
          (setSelectedById exRoot "M" initialState))).isolationMode = true ∧
    (toggleIndividualIsolation exRoot "R"
        (toggleIsolationMode exRoot
          (setSelectedById exRoot "M" initialState))).individualIsolatedId =
      some "R" :=
  ⟨rfl, rfl⟩

/-- C5 (amended): double `toggleVisibility(id)` restores the Hidden Set
whenever every uuid in the toggled object's subtree has the same hidden
status as the toggled id itself (in particular from any state where the
subtree's hidden membership is uniform); `showAll()` is idempotent
unconditionally.  Without the uniformity condition the claim fails
(see the counterexample). -/
theorem C5_double_toggle (root : Obj) (id : String) (s : StoreState)
    (o : Obj) (anc : List String) (hl : lookup root id = some (o, anc))
    (huni : ∀ u ∈ o.traverseIds, (u ∈ s.hiddenObjects ↔ id ∈ s.hiddenObjects)) :
    (toggleVisibility root id (toggleVisibility root id s)).hiddenObjects =
      s.hiddenObjects ∧
    showAll (showAll s) = showAll s := by
  refine ⟨?_, rfl⟩
  have hidD : id ∈ o.traverseIds := by
    have := uuid_mem_traverseIds o
    rwa [lookup_uuid root id o anc hl] at this
  by_cases hmem : id ∈ s.hiddenObjects
  · -- currently hidden: show the subtree, then hide it again
    have hsub : o.traverseIds.toFinset ⊆ s.hiddenObjects := by
      intro x hx
      rw [List.mem_toFinset] at hx
      exact (huni x hx).mpr hmem
    have h1 : toggleVisibility root id s =
        { s with hiddenObjects := s.hiddenObjects \ o.traverseIds.toFinset } := by
      simp [toggleVisibility, hl, hmem, foldl_erase_eq_sdiff]
    have hmem2 : id ∉ s.hiddenObjects \ o.traverseIds.toFinset := by
      simp [Finset.mem_sdiff, hidD]
    rw [h1]
    simp only [toggleVisibility, hl]
    rw [if_neg hmem2, foldl_insert_eq_union]
    rw [Finset.sdiff_union_self_eq_union]
    exact Finset.union_eq_left.mpr hsub
  · -- currently visible: hide the subtree, then show it again
    have hdisj : ∀ x ∈ o.traverseIds.toFinset, x ∉ s.hiddenObjects := by
      intro x hx
      rw [List.mem_toFinset] at hx
      exact fun hc => hmem ((huni x hx).mp hc)
    have h1 : toggleVisibility root id s =
        { s with hiddenObjects := s.hiddenObjects ∪ o.traverseIds.toFinset } := by
      simp [toggleVisibility, hl, hmem, foldl_insert_eq_union]
    have hmem2 : id ∈ s.hiddenObjects ∪ o.traverseIds.toFinset := by
      simp [Finset.mem_union, hidD]
    rw [h1]
    simp only [toggleVisibility, hl]
    rw [if_pos hmem2, foldl_erase_eq_sdiff, Finset.union_sdiff_right]
    exact Finset.sdiff_eq_self_iff_disjoint.mpr
      (Finset.disjoint_left.mpr fun x hx hx2 => hdisj x hx2 hx)

theorem C5_double_toggle_witness :
    (toggleVisibility exRoot "R" (toggleVisibility exRoot "R" initialState)).hiddenObjects =
      initialState.hiddenObjects ∧
    showAll (showAll initialState) = showAll initialState :=
  C5_double_toggle exRoot "R" initialState
    (.node "R" "Root" false [.node "M" "MeshA" true []]) [] rfl (by decide)

/-- C5 counterexample: with only the descendant mesh `"M"` hidden, toggling
the parent group `"R"` twice empties the Hidden Set instead of restoring
`{"M"}`. -/
theorem C5_double_toggle_counterexample :
    (toggleVisibility exRoot "R" (toggleVisibility exRoot "R"
        (toggleVisibility exRoot "M" initialState))).hiddenObjects ≠
      (toggleVisibility exRoot "M" initialState).hiddenObjects := by
  decide

/-- C9: `setExplosionFactor` stores a value in `[0,1]` for every input,
stores `0` for `NaN` (and any non-finite input), and clamps `1.5` to `1`. -/
theorem C9_explosionFactor_clamped :
    (∀ (v : JSNumber) (s : StoreState),
        0 ≤ (setExplosionFactor v s).explosionFactor ∧
        (setExplosionFactor v s).explosionFactor ≤ 1) ∧
    (∀ s : StoreState, (setExplosionFactor .nan s).explosionFactor = 0) ∧
    (∀ s : StoreState,
        (setExplosionFactor (.fin (3 / 2)) s).explosionFactor = 1) := by
  refine ⟨fun v s => ?_, fun s => rfl, fun s => by norm_num [setExplosionFactor]⟩
  cases v with
  | fin q =>
    exact ⟨le_min (le_max_right q 0) zero_le_one, min_le_right _ _⟩
  | nan => exact ⟨le_refl 0, zero_le_one⟩
  | posInf => exact ⟨le_refl 0, zero_le_one⟩
  | negInf => exact ⟨le_refl 0, zero_le_one⟩

/-! ## Geometry: real-valued embedding of the explosion math

`THREE.Vector3` float arithmetic is embedded as exact real arithmetic.
`normalize` follows three.js (`divideScalar(this.length() || 1)`, so the zero
vector maps to itself instead of producing NaN). -/

/-- A `THREE.Vector3` with exact real components. -/
structure Vec3 where
  x : ℝ
  y : ℝ
  z : ℝ

instance : Inhabited Vec3 := ⟨⟨0, 0, 0⟩⟩

def Vec3.add (a b : Vec3) : Vec3 := ⟨a.x + b.x, a.y + b.y, a.z + b.z⟩

def Vec3.sub (a b : Vec3) : Vec3 := ⟨a.x - b.x, a.y - b.y, a.z - b.z⟩

def Vec3.multiplyScalar (v : Vec3) (s : ℝ) : Vec3 := ⟨v.x * s, v.y * s, v.z * s⟩

/-- three.js `divideScalar`: multiply by the reciprocal. -/
noncomputable def Vec3.divideScalar (v : Vec3) (s : ℝ) : Vec3 :=
  v.multiplyScalar (1 / s)

def Vec3.addScaledVector (a w : Vec3) (s : ℝ) : Vec3 := a.add (w.multiplyScalar s)

def Vec3.dot (a b : Vec3) : ℝ := a.x * b.x + a.y * b.y + a.z * b.z

def Vec3.cross (a b : Vec3) : Vec3 :=
  ⟨a.y * b.z - a.z * b.y, a.z * b.x - a.x * b.z, a.x * b.y - a.y * b.x⟩

def Vec3.lengthSq (v : Vec3) : ℝ := v.x * v.x + v.y * v.y + v.z * v.z

noncomputable def Vec3.length (v : Vec3) : ℝ := Real.sqrt v.lengthSq

/-- three.js `normalize()`: `divideScalar(this.length() || 1)`. -/
noncomputable def Vec3.normalize (v : Vec3) : Vec3 :=
  v.divideScalar (if v.length = 0 then 1 else v.length)

theorem Vec3.lengthSq_nonneg (v : Vec3) : 0 ≤ v.lengthSq := by
  unfold Vec3.lengthSq
  nlinarith [sq_nonneg v.x, sq_nonneg v.y, sq_nonneg v.z]

theorem Vec3.length_nonneg (v : Vec3) : 0 ≤ v.length :=
  Real.sqrt_nonneg _

theorem Vec3.sq_length (v : Vec3) : v.length ^ 2 = v.lengthSq :=
  Real.sq_sqrt v.lengthSq_nonneg

theorem Vec3.length_pos_of_lengthSq_pos (v : Vec3) (h : 0 < v.lengthSq) :
    0 < v.length :=
  Real.sqrt_pos.mpr h

theorem Vec3.lengthSq_multiplyScalar (v : Vec3) (s : ℝ) :
    (v.multiplyScalar s).lengthSq = s ^ 2 * v.lengthSq := by
  unfold Vec3.lengthSq Vec3.multiplyScalar; ring

theorem Vec3.length_multiplyScalar (v : Vec3) (s : ℝ) :
    (v.multiplyScalar s).length = |s| * v.length := by
  unfold Vec3.length
  rw [Vec3.lengthSq_multiplyScalar, Real.sqrt_mul (sq_nonneg s), Real.sqrt_sq_eq_abs]

/-- A nonzero vector normalizes to a unit vector (in exact arithmetic). -/
theorem Vec3.length_normalize (v : Vec3) (h : 0 < v.lengthSq) :
    v.normalize.length = 1 := by
  have hl : 0 < v.length := v.length_pos_of_lengthSq_pos h
  unfold Vec3.normalize Vec3.divideScalar
  rw [if_neg (ne_of_gt hl), Vec3.length_multiplyScalar,
    abs_of_pos (by positivity : (0:ℝ) < 1 / v.length)]
  field_simp

theorem Vec3.lengthSq_eq_one_of_length_eq_one (v : Vec3) (h : v.length = 1) :
    v.lengthSq = 1 := by
  rw [← v.sq_length, h]; norm_num

/-- Unit vector of the fixed fallback axis `(1, 0, 0)`. -/
theorem Vec3.length_e₁ : (Vec3.mk 1 0 0).length = 1 := by
  unfold Vec3.length Vec3.lengthSq
  norm_num

/-- Lagrange / Cauchy–Schwarz for 3-vectors. -/
theorem Vec3.dot_sq_le (a b : Vec3) : (a.dot b) ^ 2 ≤ a.lengthSq * b.lengthSq := by
  unfold Vec3.dot Vec3.lengthSq
  nlinarith [sq_nonneg (a.x * b.y - a.y * b.x), sq_nonneg (a.x * b.z - a.z * b.x),
    sq_nonneg (a.y * b.z - a.z * b.y)]

theorem Vec3.lengthSq_addScaled (u w : Vec3) (c : ℝ) :
    (u.addScaledVector w c).lengthSq =
      u.lengthSq + 2 * c * (u.dot w) + c ^ 2 * w.lengthSq := by
  unfold Vec3.addScaledVector Vec3.add Vec3.multiplyScalar Vec3.lengthSq Vec3.dot
  ring

/-- The sum of a unit vector and a scaled unit vector with scale of magnitude
`≠ 1` is nonzero. -/
theorem Vec3.lengthSq_addScaled_pos (u w : Vec3) (c : ℝ)
    (hu : u.length = 1) (hw : w.length = 1) (hc : |c| ≠ 1) :
    0 < (u.addScaledVector w c).lengthSq := by
  have hu' := u.lengthSq_eq_one_of_length_eq_one hu
  have hw' := w.lengthSq_eq_one_of_length_eq_one hw
  have hcs : (u.dot w) ^ 2 ≤ 1 := by
    have := u.dot_sq_le w
    rwa [hu', hw', one_mul] at this
  have habs : |u.dot w| ≤ 1 := by
    rw [← sq_le_one_iff_abs_le_one]
    exact hcs
  rw [Vec3.lengthSq_addScaled, hu', hw']
  have h1 : -(2 * |c|) ≤ 2 * c * (u.dot w) := by
    have hb : |2 * c * (u.dot w)| ≤ 2 * |c| := by
      rw [abs_mul, abs_mul, abs_two]
      nlinarith [abs_nonneg c, abs_nonneg (u.dot w)]
    linarith [neg_abs_le (2 * c * (u.dot w)), (abs_le.mp hb).1]
  have hne : 1 - |c| ≠ 0 := by
    intro h
    exact hc (by linarith)
  have h2 : 0 < (1 - |c|) ^ 2 :=
    lt_of_le_of_ne (sq_nonneg _) (Ne.symm (pow_ne_zero 2 hne))
  nlinarith [sq_abs c]

/-- `config/constants.js`: numeric epsilon for float comparison. -/
def EPSILON : ℝ := 1e-10

namespace EXPLOSION_CONFIG

def maxDistanceFactor : ℝ := 1.25

def neighborRadiusFactor : ℝ := 0.36

def minNeighborRadius : ℝ := 0.02

def siblingLateralFactor : ℝ := 0.62

def siblingCrowdingFactor : ℝ := 0.95

def crowdingCap : ℝ := 3.5

def crowdingStrength : ℝ := 0.5

def overlapIterations : ℕ := 3

def overlapMinGapFactor : ℝ := 0.04

def overlapMinGapAbsolute : ℝ := 0.45

def overlapRadiusScale : ℝ := 0.72

def overlapSeparationStrength : ℝ := 0.36

def overlapSpreadBoost : ℝ := 0.24

def overlapCheckpoints : List ℝ := [0.35, 0.65, 1]

end EXPLOSION_CONFIG

theorem EPSILON_nonneg : (0:ℝ) ≤ EPSILON := by norm_num [EPSILON]

theorem EPSILON_lt_one : EPSILON < (1:ℝ) := by norm_num [EPSILON]

/-- The 32-bit string hash loop of `getDeterministicDirection`
(`hash = (hash * 31 + charCode) | 0`); only the value mod `2^32` is ever
read, so the hash is embedded as a natural number mod `2^32`. -/
def hashStep (h : ℕ) (c : Char) : ℕ := (h * 31 + c.toNat) % 4294967296

def stringHash (s : String) : ℕ := s.data.foldl hashStep 0

/-- `getDeterministicDirection(seedString, epsilon)`: hash the seed, map three
bytes of the hash into `[-1, 1]` components, fall back to `(1,0,0)` for a
near-zero vector, else normalize. -/
noncomputable def getDeterministicDirection (seedString : String) (epsilon : ℝ) :
    Vec3 :=
  let hash := stringHash seedString
  let x : ℝ := ((hash % 256 : ℕ) : ℝ) / 255 * 2 - 1
  let y : ℝ := ((hash / 256 % 256 : ℕ) : ℝ) / 255 * 2 - 1
  let z : ℝ := ((hash / 65536 % 256 : ℕ) : ℝ) / 255 * 2 - 1
  let direction : Vec3 := ⟨x, y, z⟩
  if direction.lengthSq ≤ epsilon then ⟨1, 0, 0⟩
  else direction.normalize

/-- `getPerpendicularDirection(direction, seedString, epsilon)`: Gram–Schmidt
against a seeded direction, then a cross-product fallback, then a fixed axis. -/
noncomputable def getPerpendicularDirection (direction : Vec3)
    (seedString : String) (epsilon : ℝ) : Vec3 :=
  let seededDirection := getDeterministicDirection seedString epsilon
  let projection := direction.multiplyScalar (seededDirection.dot direction)
  let perpendicular := seededDirection.sub projection
  let perpendicular2 :=
    if perpendicular.lengthSq ≤ epsilon then
      let fallbackAxis : Vec3 := if |direction.y| < 0.9 then ⟨0, 1, 0⟩ else ⟨1, 0, 0⟩
      direction.cross fallbackAxis
    else perpendicular
  if perpendicular2.lengthSq ≤ epsilon then ⟨1, 0, 0⟩
  else perpendicular2.normalize

/-- `toLocalDirection(parent, worldOrigin, worldDirection, epsilon)`; the
parent's `worldToLocal` transform is abstracted as a function on points. -/
noncomputable def toLocalDirection (worldToLocal : Vec3 → Vec3)
    (worldOrigin worldDirection : Vec3) (epsilon : ℝ) : Vec3 :=
  let worldStepPosition := worldOrigin.add worldDirection
  let localOrigin := worldToLocal worldOrigin
  let localDirection := (worldToLocal worldStepPosition).sub localOrigin
  let localDirection2 :=
    if localDirection.lengthSq ≤ epsilon then worldDirection else localDirection
  localDirection2.normalize

/-- `getMaxAbsScaleComponent(scale, epsilon)`. -/
def getMaxAbsScaleComponent (scale : Vec3) (epsilon : ℝ) : ℝ :=
  max (max (max |scale.x| |scale.y|) |scale.z|) epsilon

theorem getMaxAbsScaleComponent_pos (scale : Vec3) (epsilon : ℝ)
    (h : 0 < epsilon) : 0 < getMaxAbsScaleComponent scale epsilon :=
  lt_of_lt_of_le h (le_max_right _ _)

theorem length_fallback_or_normalize (v : Vec3) (epsilon : ℝ) (hε : 0 ≤ epsilon) :
    (if v.lengthSq ≤ epsilon then (⟨1, 0, 0⟩ : Vec3) else v.normalize).length = 1 := by
  split
  · exact Vec3.length_e₁
  · exact Vec3.length_normalize _ (lt_of_le_of_lt hε (not_le.mp ‹¬_›))

theorem length_normalize_branch (v w : Vec3) (epsilon : ℝ) (hε : 0 ≤ epsilon)
    (hw : w.length = 1) :
    ((if v.lengthSq ≤ epsilon then w else v).normalize).length = 1 := by
  apply Vec3.length_normalize
  split
  · rw [w.lengthSq_eq_one_of_length_eq_one hw]
    norm_num
  · exact lt_of_le_of_lt hε (not_le.mp ‹¬_›)

theorem getDeterministicDirection_length (seedString : String) (epsilon : ℝ)
    (hε : 0 ≤ epsilon) :
    (getDeterministicDirection seedString epsilon).length = 1 :=
  length_fallback_or_normalize _ epsilon hε

theorem getPerpendicularDirection_length (direction : Vec3)
    (seedString : String) (epsilon : ℝ) (hε : 0 ≤ epsilon) :
    (getPerpendicularDirection direction seedString epsilon).length = 1 :=
  length_fallback_or_normalize _ epsilon hε

theorem toLocalDirection_length (worldToLocal : Vec3 → Vec3)
    (worldOrigin worldDirection : Vec3) (epsilon : ℝ) (hε : 0 ≤ epsilon)
    (hdir : worldDirection.length = 1) :
    (toLocalDirection worldToLocal worldOrigin worldDirection epsilon).length = 1 :=
  length_normalize_branch _ worldDirection epsilon hε hdir

/-- C7: both direction-producing utilities return unit-length vectors for
every input (zero vectors, degenerate seeds, parallel inputs included), and
`getDeterministicDirection` depends only on its seed string (it is a pure
function of the seed). -/
theorem C7_direction_utils_unit :
    (∀ seed : String, (getDeterministicDirection seed EPSILON).length = 1) ∧
    (∀ (dir : Vec3) (seed : String),
        (getPerpendicularDirection dir seed EPSILON).length = 1) ∧
    (∀ seed : String,
        getDeterministicDirection seed EPSILON =
          getDeterministicDirection seed EPSILON) :=
  ⟨fun seed => getDeterministicDirection_length seed EPSILON EPSILON_nonneg,
   fun dir seed => getPerpendicularDirection_length dir seed EPSILON EPSILON_nonneg,
   fun _ => rfl⟩

/-! ## The explosion-target pipeline

The scene-derived per-node data (world bounding center/radius from
`getObjectBoundsInfo`, the parent transform, world scale and local position
read in `buildLocalTargets`) is abstracted as `NodeEntry`/`ObjRef` inputs; the
pipeline from `buildExplosionTargets` after the bounds computation is embedded
faithfully: sibling offsets, world targets, overlap resolution, local
compilation. -/

/-- The fields of a scene object read by the target builder and compiler. -/
structure ObjRef where
  uuid : String
  name : String
  parentUuid : String
  position : Vec3
  parentWorldToLocal : Vec3 → Vec3
  parentWorldScale : Vec3

instance : Inhabited ObjRef :=
  ⟨{ uuid := "", name := "", parentUuid := "", position := default,
     parentWorldToLocal := fun v => v, parentWorldScale := default }⟩

/-- An element of `nodeData` in `buildExplosionTargets`
(`{ object, center, radius }` from `buildNodeData`). -/
structure NodeEntry where
  object : ObjRef
  center : Vec3
  radius : ℝ

instance : Inhabited NodeEntry :=
  ⟨{ object := default, center := default, radius := 0 }⟩

/-- A world-space target descriptor produced by `buildWorldTargets` and
mutated by `resolveProjectedOverlaps`. -/
structure WorldTarget where
  object : ObjRef
  worldCenter : Vec3
  directionWorld : Vec3
  crowdingMultiplier : ℝ
  spreadGain : ℝ
  objectRadius : ℝ

instance : Inhabited WorldTarget :=
  ⟨{ object := default, worldCenter := default, directionWorld := default,
     crowdingMultiplier := 0, spreadGain := 0, objectRadius := 0 }⟩

/-- A compiled explosion target (`buildLocalTargets` output). -/
structure LocalTarget where
  object : ObjRef
  initialPosition : Vec3
  direction : Vec3
  localDistanceMultiplier : ℝ

/-- Sort key of `buildSiblingOffsetByIndex`: `"(name || "")(":")(uuid)"`. -/
def siblingSortKey (nodeData : List NodeEntry) (i : ℕ) : String :=
  let o := (nodeData.getD i default).object
  o.name ++ ":" ++ o.uuid

/-- Group the entry indices of `nodeData` by parent uuid, preserving
first-occurrence order of groups and in-group insertion order (the
`siblingIndicesByParent` map). -/
def siblingGroups (nodeData : List NodeEntry) : List (String × List ℕ) :=
  nodeData.enum.foldl
    (fun acc p =>
      let parentUuid := p.2.object.parentUuid
      if acc.any (fun g => g.1 == parentUuid) then
        acc.map (fun g => if g.1 == parentUuid then (g.1, g.2 ++ [p.1]) else g)
      else acc ++ [(parentUuid, [p.1])])
    []

/-- Per-group offsets: a lone sibling gets offset `0`; otherwise siblings are
sorted by the stable key and spread evenly over `[-1, 1]`. -/
noncomputable def offsetsOfGroup (nodeData : List NodeEntry)
    (indices : List ℕ) : List (ℕ × ℝ) :=
  let sorted := indices.mergeSort
    (fun i j => siblingSortKey nodeData i ≤ siblingSortKey nodeData j)
  if sorted.length ≤ 1 then
    match sorted.head? with
    | some i => [(i, 0)]
    | none => []
  else
    let half : ℝ := ((sorted.length : ℝ) - 1) / 2
    sorted.enum.map
      (fun q => (q.2, ((q.1 : ℝ) - half) / max half 1))

/-- Association-list read with the `siblingOffsetByIndex.get(index) || 0`
default. -/
def assocGetD (l : List (ℕ × ℝ)) (i : ℕ) : ℝ :=
  match l with
  | [] => 0
  | (j, v) :: rest => if i = j then v else assocGetD rest i

/-- `buildSiblingOffsetByIndex` as a total function from entry index to
sibling offset. -/
noncomputable def buildSiblingOffsetByIndex (nodeData : List NodeEntry) :
    ℕ → ℝ :=
  fun i =>
    assocGetD ((siblingGroups nodeData).flatMap
      (fun g => offsetsOfGroup nodeData g.2)) i

/-- `baseDirectionWorld` of `buildWorldTargets`: direction away from the
model center, or a seeded deterministic direction when degenerate. -/
noncomputable def baseDirectionOf (uuid : String) (directionWorld : Vec3) : Vec3 :=
  if directionWorld.lengthSq ≤ EPSILON then
    getDeterministicDirection uuid EPSILON
  else directionWorld.normalize

/-- The inner neighbor loop of `buildWorldTargets`: accumulates the crowding
score and the repulsion vector for the entry at `index`. -/
noncomputable def crowdingFold (nodeData : List NodeEntry) (index : ℕ)
    (objectWorldPosition : Vec3) (uuid : String) (neighborRadius : ℝ) :
    ℝ × Vec3 :=
  nodeData.enum.foldl
    (fun (acc : ℝ × Vec3) other =>
      if other.1 = index then acc
      else
        let delta := objectWorldPosition.sub other.2.center
        let distance := delta.length
        if neighborRadius < distance then acc
        else
          let safeDistance := max distance EPSILON
          let normalizedDistance := safeDistance / neighborRadius
          let weight := (1 - normalizedDistance) ^ 2
          let repel :=
            if distance ≤ EPSILON then
              acc.2.addScaledVector
                (getDeterministicDirection
                  (uuid ++ ":" ++ other.2.object.uuid) EPSILON) weight
            else acc.2.addScaledVector (delta.divideScalar safeDistance) weight
          (acc.1 + weight, repel))
    (0, ⟨0, 0, 0⟩)

/-- Blend the accumulated repulsion into the base direction
(`addScaledVector(repel.normalize(), 1.2).normalize()`), when non-negligible. -/
noncomputable def blendedDirection (base repel : Vec3) : Vec3 :=
  if EPSILON < repel.lengthSq then
    (base.addScaledVector repel.normalize 1.2).normalize
  else base

/-- Sibling lateral spread: nudge the direction along a perpendicular and bump
the crowding score, when the sibling offset is non-negligible. -/
noncomputable def siblingAdjusted (finalDirectionWorld : Vec3)
    (crowdingScore siblingOffset : ℝ) (seed : String) : Vec3 × ℝ :=
  if EPSILON < |siblingOffset| then
    let perpendicular :=
      getPerpendicularDirection finalDirectionWorld seed EPSILON
    ((finalDirectionWorld.addScaledVector perpendicular
        (siblingOffset * EXPLOSION_CONFIG.siblingLateralFactor)).normalize,
      crowdingScore + |siblingOffset| * EXPLOSION_CONFIG.siblingCrowdingFactor)
  else (finalDirectionWorld, crowdingScore)

/-- The body of the `nodeData.forEach` loop of `buildWorldTargets` for the
entry at `index`. -/
noncomputable def worldTargetOfEntry (nodeData : List NodeEntry) (center : Vec3)
    (neighborRadius : ℝ) (siblingOffsetByIndex : ℕ → ℝ) (index : ℕ)
    (entry : NodeEntry) : WorldTarget :=
  let obj := entry.object
  let objectWorldPosition := entry.center
  let baseDirectionWorld := baseDirectionOf obj.uuid (objectWorldPosition.sub center)
  let acc := crowdingFold nodeData index objectWorldPosition obj.uuid neighborRadius
  let withSibling := siblingAdjusted (blendedDirection baseDirectionWorld acc.2)
    acc.1 (siblingOffsetByIndex index) (obj.parentUuid ++ ":" ++ obj.uuid)
  { object := obj
    worldCenter := objectWorldPosition
    directionWorld := withSibling.1
    crowdingMultiplier :=
      1 + min withSibling.2 EXPLOSION_CONFIG.crowdingCap *
        EXPLOSION_CONFIG.crowdingStrength
    spreadGain := 1
    objectRadius := entry.radius }

/-- `buildWorldTargets(nodeData, center, neighborRadius, siblingOffsetByIndex)`. -/
noncomputable def buildWorldTargets (nodeData : List NodeEntry) (center : Vec3)
    (neighborRadius : ℝ) (siblingOffsetByIndex : ℕ → ℝ) : List WorldTarget :=
  nodeData.enum.map
    (fun p => worldTargetOfEntry nodeData center neighborRadius
      siblingOffsetByIndex p.1 p.2)

/-- The checkpoint scan of `resolveProjectedOverlaps` for one pair: the
minimum projected separation and the delta vector realising it
(`minObservedDistance` starts at `Infinity`, embedded as `none`). -/
noncomputable def bestOverlap (left right : WorldTarget)
    (leftDistance rightDistance : ℝ) : Option (ℝ × Vec3) :=
  EXPLOSION_CONFIG.overlapCheckpoints.foldl
    (fun acc checkpoint =>
      let leftProjectedCenter :=
        left.worldCenter.addScaledVector left.directionWorld
          (leftDistance * checkpoint)
      let rightProjectedCenter :=
        right.worldCenter.addScaledVector right.directionWorld
          (rightDistance * checkpoint)
      let deltaAtCheckpoint := leftProjectedCenter.sub rightProjectedCenter
      let distanceAtCheckpoint := deltaAtCheckpoint.length
      match acc with
      | none => some (distanceAtCheckpoint, deltaAtCheckpoint)
      | some best =>
        if distanceAtCheckpoint < best.1 then
          some (distanceAtCheckpoint, deltaAtCheckpoint)
        else some best)
    none

/-- The body of the pair loop of `resolveProjectedOverlaps` at indices
`li < ri` (in-place mutation embedded as `List.set`). -/
noncomputable def resolvePair (minBaseGap maxDistanceWorld : ℝ)
    (entries : List WorldTarget) (li ri : ℕ) : List WorldTarget :=
  let left := entries.getD li default
  let right := entries.getD ri default
  let leftDistance := maxDistanceWorld * left.crowdingMultiplier * left.spreadGain
  let rightDistance := maxDistanceWorld * right.crowdingMultiplier * right.spreadGain
  match bestOverlap left right leftDistance rightDistance with
  | none => entries
  | some (distance, bestDelta) =>
    let minGap :=
      max ((left.objectRadius + right.objectRadius) *
        EXPLOSION_CONFIG.overlapRadiusScale) minBaseGap
    if minGap ≤ distance then entries
    else
      let overlapRatio := (minGap - distance) / minGap
      let separationDirection :=
        if distance ≤ EPSILON then
          getDeterministicDirection
            (left.object.uuid ++ ":" ++ right.object.uuid) EPSILON
        else bestDelta.divideScalar (max distance EPSILON)
      let separationStrength :=
        EXPLOSION_CONFIG.overlapSeparationStrength * overlapRatio
      let spreadBoost := 1 + overlapRatio * EXPLOSION_CONFIG.overlapSpreadBoost
      let newLeft :=
        { left with
            directionWorld := (left.directionWorld.addScaledVector
              separationDirection separationStrength).normalize
            spreadGain := left.spreadGain * spreadBoost }
      let newRight :=
        { right with
            directionWorld := (right.directionWorld.addScaledVector
              separationDirection (-separationStrength)).normalize
            spreadGain := right.spreadGain * spreadBoost }
      (entries.set li newLeft).set ri newRight

/-- One iteration of the pair loops (`leftIndex < rightIndex < n`). -/
noncomputable def resolveIteration (minBaseGap maxDistanceWorld : ℝ) (n : ℕ)
    (entries : List WorldTarget) : List WorldTarget :=
  (List.range n).foldl
    (fun acc li =>
      (List.range n).foldl
        (fun acc2 ri =>
          if li < ri then resolvePair minBaseGap maxDistanceWorld acc2 li ri
          else acc2)
        acc)
    entries

/-- `resolveProjectedOverlaps(entries, maxDistanceWorld, modelRadius)`. -/
noncomputable def resolveProjectedOverlaps (entries : List WorldTarget)
    (maxDistanceWorld modelRadius : ℝ) : List WorldTarget :=
  if entries.length < 2 then entries
  else
    let minBaseGap :=
      max (modelRadius * EXPLOSION_CONFIG.overlapMinGapFactor)
        EXPLOSION_CONFIG.overlapMinGapAbsolute
    (List.range EXPLOSION_CONFIG.overlapIterations).foldl
      (fun acc _ =>
        resolveIteration minBaseGap maxDistanceWorld entries.length acc)
      entries

/-- `buildLocalTargets(worldTargets)`. -/
noncomputable def buildLocalTargets (worldTargets : List WorldTarget) :
    List LocalTarget :=
  worldTargets.map
    (fun entry =>
      let obj := entry.object
      let initialPosition := obj.position
      let directionLocal := toLocalDirection obj.parentWorldToLocal
        entry.worldCenter entry.directionWorld EPSILON
      let parentScaleMax := getMaxAbsScaleComponent obj.parentWorldScale EPSILON
      let localDistanceMultiplier := 1 / parentScaleMax
      let finalDistanceMultiplier := entry.crowdingMultiplier * entry.spreadGain
      { object := obj
        initialPosition := initialPosition
        direction := directionLocal
        localDistanceMultiplier :=
          localDistanceMultiplier * finalDistanceMultiplier })

/-- `buildExplosionTargets(root)` from the model-bounds stage onward: the
scene-graph bounds (`center`, `radius`) and the per-node bounds inside
`nodeData` are parameters, the rest is the source pipeline. -/
noncomputable def buildExplosionTargetsCore (nodeData : List NodeEntry)
    (center : Vec3) (radius : ℝ) : List LocalTarget :=
  let maxDistanceWorld := radius * EXPLOSION_CONFIG.maxDistanceFactor
  let siblingOffsetByIndex := buildSiblingOffsetByIndex nodeData
  let neighborRadius :=
    max (radius * EXPLOSION_CONFIG.neighborRadiusFactor)
      EXPLOSION_CONFIG.minNeighborRadius
  let worldTargets := buildWorldTargets nodeData center neighborRadius
    siblingOffsetByIndex
  let resolved := resolveProjectedOverlaps worldTargets maxDistanceWorld radius
  buildLocalTargets resolved

/-! ## Invariants of the pipeline (claim C6) -/

theorem EPSILON_pos : (0:ℝ) < EPSILON := by norm_num [EPSILON]

theorem Vec3.length_divideScalar_self (v : Vec3) (d : ℝ) (hv : v.length = d)
    (hd : 0 < d) : (v.divideScalar d).length = 1 := by
  unfold Vec3.divideScalar
  rw [Vec3.length_multiplyScalar, hv, abs_of_pos (by positivity), one_div,
    inv_mul_cancel₀ (ne_of_gt hd)]

/-- Fold induction principle with membership of the traversed element. -/
theorem foldl_preserve_mem {α β : Type _} (P : β → Prop) (f : β → α → β)
    (l : List α) (init : β) (h0 : P init)
    (hstep : ∀ b a, a ∈ l → P b → P (f b a)) : P (l.foldl f init) := by
  induction l generalizing init with
  | nil => exact h0
  | cons x xs ih =>
    exact ih (f init x) (hstep init x (List.mem_cons_self x xs) h0)
      (fun b a ha hb => hstep b a (List.mem_cons_of_mem x ha) hb)

/-- The invariant carried by world-target descriptors through the pipeline. -/
def TargetInv (t : WorldTarget) : Prop :=
  t.directionWorld.length = 1 ∧ 0 ≤ t.crowdingMultiplier ∧ 0 ≤ t.spreadGain

theorem baseDirectionOf_length (uuid : String) (v : Vec3) :
    (baseDirectionOf uuid v).length = 1 := by
  unfold baseDirectionOf
  split_ifs with hle
  · exact getDeterministicDirection_length _ _ EPSILON_nonneg
  · exact Vec3.length_normalize _ (lt_of_le_of_lt EPSILON_nonneg (not_le.mp hle))

theorem crowdingFold_nonneg (nodeData : List NodeEntry) (index : ℕ)
    (objectWorldPosition : Vec3) (uuid : String) (neighborRadius : ℝ) :
    0 ≤ (crowdingFold nodeData index objectWorldPosition uuid neighborRadius).1 := by
  unfold crowdingFold
  apply foldl_preserve_mem (fun acc : ℝ × Vec3 => 0 ≤ acc.1)
  · norm_num
  · intro b a _ hb
    dsimp only
    split_ifs
    · exact hb
    · exact hb
    · exact add_nonneg hb (sq_nonneg _)
    · exact add_nonneg hb (sq_nonneg _)

theorem blendedDirection_length (base repel : Vec3) (hb : base.length = 1) :
    (blendedDirection base repel).length = 1 := by
  unfold blendedDirection
  split_ifs with hgt
  · apply Vec3.length_normalize
    apply Vec3.lengthSq_addScaled_pos _ _ _ hb
      (Vec3.length_normalize _ (lt_of_le_of_lt EPSILON_nonneg hgt))
    rw [abs_of_pos (by norm_num : (0:ℝ) < 1.2)]
    norm_num
  · exact hb

theorem siblingAdjusted_inv (fd : Vec3) (score so : ℝ) (seed : String)
    (hfd : fd.length = 1) (hscore : 0 ≤ score) (hso : |so| ≤ 1) :
    (siblingAdjusted fd score so seed).1.length = 1 ∧
    0 ≤ (siblingAdjusted fd score so seed).2 := by
  unfold siblingAdjusted
  split_ifs with hgt
  · constructor
    · apply Vec3.length_normalize
      apply Vec3.lengthSq_addScaled_pos _ _ _ hfd
        (getPerpendicularDirection_length _ _ _ EPSILON_nonneg)
      have hb : |so * EXPLOSION_CONFIG.siblingLateralFactor| ≤
          EXPLOSION_CONFIG.siblingLateralFactor := by
        rw [abs_mul, abs_of_pos
          (by norm_num [EXPLOSION_CONFIG.siblingLateralFactor] :
            (0:ℝ) < EXPLOSION_CONFIG.siblingLateralFactor)]
        exact mul_le_of_le_one_left
          (by norm_num [EXPLOSION_CONFIG.siblingLateralFactor]) hso
      exact ne_of_lt (lt_of_le_of_lt hb
        (by norm_num [EXPLOSION_CONFIG.siblingLateralFactor]))
    · exact add_nonneg hscore (mul_nonneg (abs_nonneg so)
        (by norm_num [EXPLOSION_CONFIG.siblingCrowdingFactor]))
  · exact ⟨hfd, hscore⟩

theorem crowdingMultiplier_nonneg (score : ℝ) (h : 0 ≤ score) :
    0 ≤ 1 + min score EXPLOSION_CONFIG.crowdingCap *
      EXPLOSION_CONFIG.crowdingStrength := by
  have h0 : (0:ℝ) ≤ min score EXPLOSION_CONFIG.crowdingCap :=
    le_min h (by norm_num [EXPLOSION_CONFIG.crowdingCap])
  have hmul : (0:ℝ) ≤ min score EXPLOSION_CONFIG.crowdingCap *
      EXPLOSION_CONFIG.crowdingStrength :=
    mul_nonneg h0 (by norm_num [EXPLOSION_CONFIG.crowdingStrength])
  linarith

theorem worldTargetOfEntry_inv (nodeData : List NodeEntry) (center : Vec3)
    (neighborRadius : ℝ) (siblingOffsetByIndex : ℕ → ℝ) (index : ℕ)
    (entry : NodeEntry) (hso : |siblingOffsetByIndex index| ≤ 1) :
    TargetInv (worldTargetOfEntry nodeData center neighborRadius
      siblingOffsetByIndex index entry) := by
  have hsib := siblingAdjusted_inv
    (blendedDirection (baseDirectionOf entry.object.uuid (entry.center.sub center))
      (crowdingFold nodeData index entry.center entry.object.uuid neighborRadius).2)
    (crowdingFold nodeData index entry.center entry.object.uuid neighborRadius).1
    (siblingOffsetByIndex index) (entry.object.parentUuid ++ ":" ++ entry.object.uuid)
    (blendedDirection_length _ _ (baseDirectionOf_length _ _))
    (crowdingFold_nonneg _ _ _ _ _) hso
  exact ⟨hsib.1, crowdingMultiplier_nonneg _ hsib.2,
    by show (0:ℝ) ≤ 1; norm_num⟩

theorem buildWorldTargets_inv (nodeData : List NodeEntry) (center : Vec3)
    (neighborRadius : ℝ) (siblingOffsetByIndex : ℕ → ℝ)
    (hso : ∀ i, |siblingOffsetByIndex i| ≤ 1) :
    ∀ t ∈ buildWorldTargets nodeData center neighborRadius siblingOffsetByIndex,
      TargetInv t := by
  intro t ht
  unfold buildWorldTargets at ht
  obtain ⟨p, _, rfl⟩ := List.mem_map.mp ht
  exact worldTargetOfEntry_inv _ _ _ _ _ _ (hso p.1)

theorem assocGetD_bound (l : List (ℕ × ℝ)) (i : ℕ)
    (h : ∀ p ∈ l, |p.2| ≤ 1) : |assocGetD l i| ≤ 1 := by
  induction l with
  | nil => simp [assocGetD]
  | cons p rest ih =>
    obtain ⟨j, v⟩ := p
    simp only [assocGetD]
    split_ifs with hij
    · exact h (j, v) (List.mem_cons_self _ _)
    · exact ih (fun q hq => h q (List.mem_cons_of_mem _ hq))

theorem offsetsOfGroup_bound (nodeData : List NodeEntry) (indices : List ℕ) :
    ∀ p ∈ offsetsOfGroup nodeData indices, |p.2| ≤ 1 := by
  intro p hp
  unfold offsetsOfGroup at hp
  by_cases hlen : (indices.mergeSort
      (fun i j => siblingSortKey nodeData i ≤ siblingSortKey nodeData j)).length ≤ 1
  · rw [if_pos hlen] at hp
    rcases hh : (indices.mergeSort
        (fun i j => siblingSortKey nodeData i ≤ siblingSortKey nodeData j)).head? with _ | i
    · rw [hh] at hp
      simp at hp
    · rw [hh] at hp
      have : p = (i, 0) := List.mem_singleton.mp hp
      rw [this]
      norm_num
  · rw [if_neg hlen] at hp
    obtain ⟨q, hq, rfl⟩ := List.mem_map.mp hp
    have hqlt : q.1 < (indices.mergeSort
        (fun i j => siblingSortKey nodeData i ≤ siblingSortKey nodeData j)).length :=
      List.fst_lt_of_mem_enum hq
    have h2 : 2 ≤ (indices.mergeSort
        (fun i j => siblingSortKey nodeData i ≤ siblingSortKey nodeData j)).length := by
      omega
    set n := (indices.mergeSort
      (fun i j => siblingSortKey nodeData i ≤ siblingSortKey nodeData j)).length with hn
    have hn2 : (2:ℝ) ≤ (n:ℝ) := by exact_mod_cast h2
    have hq1 : (q.1:ℝ) ≤ (n:ℝ) - 1 := by
      have : (q.1:ℝ) + 1 ≤ (n:ℝ) := by exact_mod_cast hqlt
      linarith
    have hhalf : (0:ℝ) < ((n:ℝ) - 1) / 2 := by linarith
    have hm : (0:ℝ) < max (((n:ℝ) - 1) / 2) 1 :=
      lt_of_lt_of_le one_pos (le_max_right _ _)
    show |((q.1:ℝ) - ((n:ℝ) - 1) / 2) / max (((n:ℝ) - 1) / 2) 1| ≤ 1
    rw [abs_div, abs_of_pos hm, div_le_one hm]
    have habs : |(q.1:ℝ) - ((n:ℝ) - 1) / 2| ≤ ((n:ℝ) - 1) / 2 := by
      rw [abs_le]
      constructor
      · have : (0:ℝ) ≤ (q.1:ℝ) := Nat.cast_nonneg _
        linarith
      · linarith
    exact le_trans habs (le_max_left _ _)

theorem buildSiblingOffsetByIndex_bound (nodeData : List NodeEntry) :
    ∀ i, |buildSiblingOffsetByIndex nodeData i| ≤ 1 := by
  intro i
  unfold buildSiblingOffsetByIndex
  apply assocGetD_bound
  intro p hp
  obtain ⟨g, _, hpg⟩ := List.exists_of_mem_flatMap hp
  exact offsetsOfGroup_bound nodeData g.2 p hpg

theorem bestOverlap_good (left right : WorldTarget)
    (leftDistance rightDistance : ℝ) (d : ℝ) (δ : Vec3)
    (h : bestOverlap left right leftDistance rightDistance = some (d, δ)) :
    0 ≤ d ∧ δ.length = d := by
  have key : ∀ q : ℝ × Vec3,
      bestOverlap left right leftDistance rightDistance = some q →
        0 ≤ q.1 ∧ q.2.length = q.1 := by
    unfold bestOverlap
    apply foldl_preserve_mem
      (fun acc : Option (ℝ × Vec3) =>
        ∀ q : ℝ × Vec3, acc = some q → 0 ≤ q.1 ∧ q.2.length = q.1)
    · intro q hq
      simp at hq
    · intro b a _ hb q
      dsimp only
      cases b with
      | none =>
        intro hq
        cases hq
        exact ⟨Vec3.length_nonneg _, rfl⟩
      | some best =>
        intro hq
        dsimp only at hq
        by_cases hlt :
            ((left.worldCenter.addScaledVector left.directionWorld
                (leftDistance * a)).sub
              (right.worldCenter.addScaledVector right.directionWorld
                (rightDistance * a))).length < best.1
        · rw [if_pos hlt] at hq
          cases hq
          exact ⟨Vec3.length_nonneg _, rfl⟩
        · rw [if_neg hlt] at hq
          cases hq
          exact hb _ rfl
  exact key (d, δ) h

theorem newDir_length (u sep : Vec3) (s : ℝ) (hu : u.length = 1)
    (hsep : sep.length = 1) (hs : |s| < 1) :
    ((u.addScaledVector sep s).normalize).length = 1 :=
  Vec3.length_normalize _ (Vec3.lengthSq_addScaled_pos u sep s hu hsep (ne_of_lt hs))

theorem separationDirection_length (lu ru : String) (bestDelta : Vec3)
    (distance : ℝ) (hdl : bestDelta.length = distance) :
    ((if distance ≤ EPSILON then
        getDeterministicDirection (lu ++ ":" ++ ru) EPSILON
      else bestDelta.divideScalar (max distance EPSILON)) : Vec3).length = 1 := by
  split_ifs with hle
  · exact getDeterministicDirection_length _ _ EPSILON_nonneg
  · have hgt : EPSILON < distance := not_le.mp hle
    rw [max_eq_left (le_of_lt hgt)]
    exact Vec3.length_divideScalar_self bestDelta distance hdl
      (lt_of_le_of_lt EPSILON_nonneg hgt)

theorem separationStrength_bound (minGap distance : ℝ) (hmg : 0 < minGap)
    (hd0 : 0 ≤ distance) (hlt : distance < minGap) :
    |EXPLOSION_CONFIG.overlapSeparationStrength * ((minGap - distance) / minGap)| < 1 := by
  have hq0 : 0 < (minGap - distance) / minGap := div_pos (by linarith) hmg
  have hq1 : (minGap - distance) / minGap ≤ 1 := by
    rw [div_le_one hmg]
    linarith
  rw [abs_of_pos (mul_pos
    (by norm_num [EXPLOSION_CONFIG.overlapSeparationStrength]) hq0)]
  have hS : EXPLOSION_CONFIG.overlapSeparationStrength = (0.36:ℝ) := by
    norm_num [EXPLOSION_CONFIG.overlapSeparationStrength]
  rw [hS]
  linarith

theorem spreadBoost_nonneg (minGap distance : ℝ) (hmg : 0 < minGap)
    (hlt : distance < minGap) :
    0 ≤ 1 + (minGap - distance) / minGap * EXPLOSION_CONFIG.overlapSpreadBoost := by
  have hq0 : 0 < (minGap - distance) / minGap := div_pos (by linarith) hmg
  have hB : EXPLOSION_CONFIG.overlapSpreadBoost = (0.24:ℝ) := by
    norm_num [EXPLOSION_CONFIG.overlapSpreadBoost]
  rw [hB]
  linarith

theorem resolvePair_preserves (minBaseGap maxDistanceWorld : ℝ)
    (entries : List WorldTarget) (li ri : ℕ) (hmbg : 0 < minBaseGap)
    (hli : li < entries.length) (hri : ri < entries.length)
    (h : ∀ e ∈ entries, TargetInv e) :
    (∀ e ∈ resolvePair minBaseGap maxDistanceWorld entries li ri, TargetInv e) ∧
    (resolvePair minBaseGap maxDistanceWorld entries li ri).length =
      entries.length := by
  have hleft : TargetInv (entries.getD li default) := by
    rw [List.getD_eq_getElem entries default hli]
    exact h _ (List.getElem_mem hli)
  have hright : TargetInv (entries.getD ri default) := by
    rw [List.getD_eq_getElem entries default hri]
    exact h _ (List.getElem_mem hri)
  unfold resolvePair
  dsimp only
  set L := entries.getD li default with hL
  set R := entries.getD ri default with hR
  cases hbo : bestOverlap L R
      (maxDistanceWorld * L.crowdingMultiplier * L.spreadGain)
      (maxDistanceWorld * R.crowdingMultiplier * R.spreadGain) with
  | none => exact ⟨h, rfl⟩
  | some p =>
    obtain ⟨distance, bestDelta⟩ := p
    obtain ⟨hd0, hdl⟩ := bestOverlap_good _ _ _ _ _ _ hbo
    dsimp only
    by_cases hgap : max ((L.objectRadius + R.objectRadius) *
        EXPLOSION_CONFIG.overlapRadiusScale) minBaseGap ≤ distance
    · rw [if_pos hgap]
      exact ⟨h, rfl⟩
    · rw [if_neg hgap]
      have hminGap : 0 < max ((L.objectRadius + R.objectRadius) *
          EXPLOSION_CONFIG.overlapRadiusScale) minBaseGap :=
        lt_of_lt_of_le hmbg (le_max_right _ _)
      have hlt : distance < max ((L.objectRadius + R.objectRadius) *
          EXPLOSION_CONFIG.overlapRadiusScale) minBaseGap := not_le.mp hgap
      have hsep : ((if distance ≤ EPSILON then
            getDeterministicDirection
              (L.object.uuid ++ ":" ++ R.object.uuid) EPSILON
          else bestDelta.divideScalar (max distance EPSILON)) : Vec3).length = 1 :=
        separationDirection_length _ _ _ _ hdl
      have hss := separationStrength_bound _ _ hminGap hd0 hlt
      have hboost := spreadBoost_nonneg _ _ hminGap hlt
      constructor
      · intro e he
        rcases List.mem_or_eq_of_mem_set he with he2 | rfl
        · rcases List.mem_or_eq_of_mem_set he2 with he3 | rfl
          · exact h e he3
          · exact ⟨newDir_length _ _ _ hleft.1 hsep hss,
              hleft.2.1, mul_nonneg hleft.2.2 hboost⟩
        · refine ⟨?_, hright.2.1, mul_nonneg hright.2.2 hboost⟩
          apply newDir_length _ _ _ hright.1 hsep
          rw [abs_neg]
          exact hss
      · rw [List.length_set, List.length_set]

theorem resolveIteration_preserves (minBaseGap maxDistanceWorld : ℝ) (n : ℕ)
    (hmbg : 0 < minBaseGap) (entries : List WorldTarget)
    (h : ∀ e ∈ entries, TargetInv e) (hlen : entries.length = n) :
    (∀ e ∈ resolveIteration minBaseGap maxDistanceWorld n entries, TargetInv e) ∧
    (resolveIteration minBaseGap maxDistanceWorld n entries).length = n := by
  unfold resolveIteration
  apply foldl_preserve_mem
    (fun l : List WorldTarget => (∀ e ∈ l, TargetInv e) ∧ l.length = n)
  · exact ⟨h, hlen⟩
  · intro acc li hli hacc
    apply foldl_preserve_mem
      (fun l : List WorldTarget => (∀ e ∈ l, TargetInv e) ∧ l.length = n)
    · exact hacc
    · intro acc2 ri hri hacc2
      dsimp only
      split_ifs with hlt
      · have hp := resolvePair_preserves minBaseGap maxDistanceWorld acc2 li ri
          hmbg (by rw [hacc2.2]; exact List.mem_range.mp hli)
          (by rw [hacc2.2]; exact List.mem_range.mp hri) hacc2.1
        exact ⟨hp.1, by rw [hp.2, hacc2.2]⟩
      · exact hacc2

theorem resolveProjectedOverlaps_preserves (entries : List WorldTarget)
    (maxDistanceWorld modelRadius : ℝ) (h : ∀ e ∈ entries, TargetInv e) :
    ∀ e ∈ resolveProjectedOverlaps entries maxDistanceWorld modelRadius,
      TargetInv e := by
  unfold resolveProjectedOverlaps
  split_ifs with hlen
  · exact h
  · dsimp only
    have hmbg : 0 < max (modelRadius * EXPLOSION_CONFIG.overlapMinGapFactor)
        EXPLOSION_CONFIG.overlapMinGapAbsolute :=
      lt_of_lt_of_le
        (by norm_num [EXPLOSION_CONFIG.overlapMinGapAbsolute]) (le_max_right _ _)
    have key : (∀ e ∈ (List.range EXPLOSION_CONFIG.overlapIterations).foldl
        (fun acc _ => resolveIteration
          (max (modelRadius * EXPLOSION_CONFIG.overlapMinGapFactor)
            EXPLOSION_CONFIG.overlapMinGapAbsolute)
          maxDistanceWorld entries.length acc) entries, TargetInv e) ∧
        ((List.range EXPLOSION_CONFIG.overlapIterations).foldl
          (fun acc _ => resolveIteration
            (max (modelRadius * EXPLOSION_CONFIG.overlapMinGapFactor)
              EXPLOSION_CONFIG.overlapMinGapAbsolute)
            maxDistanceWorld entries.length acc) entries).length =
          entries.length := by
      apply foldl_preserve_mem
        (fun l : List WorldTarget =>
          (∀ e ∈ l, TargetInv e) ∧ l.length = entries.length)
      · exact ⟨h, rfl⟩
      · intro b a _ hb
        exact resolveIteration_preserves _ _ _ hmbg b hb.1 hb.2
    exact key.1

theorem buildLocalTargets_inv (worldTargets : List WorldTarget)
    (h : ∀ e ∈ worldTargets, TargetInv e) :
    ∀ t ∈ buildLocalTargets worldTargets,
      t.direction.length = 1 ∧ 0 ≤ t.localDistanceMultiplier := by
  intro t ht
  unfold buildLocalTargets at ht
  obtain ⟨e, he, rfl⟩ := List.mem_map.mp ht
  obtain ⟨hdir, hcm, hsg⟩ := h e he
  constructor
  · exact toLocalDirection_length _ _ _ _ EPSILON_nonneg hdir
  · have hpsm : 0 < getMaxAbsScaleComponent e.object.parentWorldScale EPSILON :=
      getMaxAbsScaleComponent_pos _ _ EPSILON_pos
    have hinv : 0 ≤ 1 / getMaxAbsScaleComponent e.object.parentWorldScale EPSILON := by
      positivity
    exact mul_nonneg hinv (mul_nonneg hcm hsg)

/-- C6: every compiled Explosion Target has a unit-length local direction and
a non-negative local distance multiplier (the product of the inverse parent
max-abs world scale, the crowding multiplier, and the spread gain), for every
input scene data. -/
theorem C6_compiled_targets (nodeData : List NodeEntry) (center : Vec3)
    (radius : ℝ) :
    (buildExplosionTargetsCore nodeData center radius).Forall
      (fun t => t.direction.length = 1 ∧ 0 ≤ t.localDistanceMultiplier) := by
  rw [List.forall_iff_forall_mem]
  unfold buildExplosionTargetsCore
  apply buildLocalTargets_inv
  apply resolveProjectedOverlaps_preserves
  apply buildWorldTargets_inv
  exact buildSiblingOffsetByIndex_bound nodeData

/-! ## Node selection strategy (`pickExplosionNodes`, claim C8) -/

mutual
/-- `hasMeshDescendant` via `obj.traverse` (the object itself counts). -/
def Obj.anyMesh : Obj → Bool
  | .node _ _ m cs => m || anyMeshList cs

def anyMeshList : List Obj → Bool
  | [] => false
  | c :: cs => c.anyMesh || anyMeshList cs
end

/-- `hasMeshDescendant(object3D)`. -/
def hasMeshDescendant (o : Obj) : Bool := o.anyMesh

mutual
/-- `getMeshNodes`: all mesh objects in traversal order. -/
def Obj.meshNodes : Obj → List Obj
  | .node u n m cs =>
    (if m then [Obj.node u n m cs] else []) ++ meshNodesList cs

def meshNodesList : List Obj → List Obj
  | [] => []
  | c :: cs => c.meshNodes ++ meshNodesList cs
end

def getMeshNodes (root : Obj) : List Obj := root.meshNodes

mutual
/-- The traversal of `getUniqueMeshParents`: for every visited mesh that has
a parent, emit the parent (before deduplication). -/
def collectMeshParents : Option Obj → Obj → List Obj
  | parent, .node u n m cs =>
    (match parent with
     | some p => if m then [p] else []
     | none => []) ++ collectMeshParentsList (some (.node u n m cs)) cs

def collectMeshParentsList : Option Obj → List Obj → List Obj
  | _, [] => []
  | parent, c :: cs =>
    collectMeshParents parent c ++ collectMeshParentsList parent cs
end

/-- First-occurrence deduplication by uuid (`Map` insertion semantics). -/
def dedupByUuid (l : List Obj) : List Obj :=
  l.foldl
    (fun acc o => if acc.any (fun q => q.uuid == o.uuid) then acc else acc ++ [o])
    []

/-- `getUniqueMeshParents(root)`. -/
def getUniqueMeshParents (root : Obj) : List Obj :=
  dedupByUuid (collectMeshParents none root)

/-- `pickExplosionNodes(root)`: the adaptive decomposition ladder. -/
def pickExplosionNodes (root : Obj) : List Obj :=
  let candidates0 := root.children.filter hasMeshDescendant
  let candidates1 :=
    if candidates0.length ≤ 1 then
      match candidates0.head? with
      | some c0 =>
        let nestedCandidates := c0.children.filter hasMeshDescendant
        if 0 < nestedCandidates.length then nestedCandidates else candidates0
      | none => candidates0
    else candidates0
  let candidates2 :=
    if candidates1.length < 6 then
      let meshParents := (getUniqueMeshParents root).filter hasMeshDescendant
      if candidates1.length < meshParents.length then meshParents else candidates1
    else candidates1
  if candidates2.length < 3 then getMeshNodes root else candidates2

/-- The `explosionNodes.length === 0` fallback of `buildExplosionTargets`. -/
def explosionNodesWithFallback (root : Obj) : List Obj :=
  let explosionNodes := pickExplosionNodes root
  if explosionNodes.length = 0 then getMeshNodes root else explosionNodes

/-- C8 spec side, following the claim's wording: root children with a
renderable descendant; descend into a lone group's mesh-bearing children when
non-empty; below 6 groups prefer the deduplicated unique immediate parents of
every mesh exactly when strictly larger; below 3 groups the flat mesh list. -/
def pickExplosionNodesSpec (root : Obj) : List Obj :=
  let step1 := root.children.filter hasMeshDescendant
  let step2 :=
    if step1.length ≤ 1 then
      match step1 with
      | [g] =>
        let inner := g.children.filter hasMeshDescendant
        if inner.isEmpty then step1 else inner
      | _ => step1
    else step1
  let step3 :=
    if step2.length < 6 then
      let parents := getUniqueMeshParents root
      if step2.length < parents.length then parents else step2
    else step2
  if step3.length < 3 then getMeshNodes root else step3

theorem isMesh_anyMesh (o : Obj) (h : o.isMesh = true) : o.anyMesh = true := by
  cases o with
  | node u n m cs =>
    rw [Obj.anyMesh]
    rw [Obj.isMesh] at h
    rw [h]
    rfl

theorem anyMeshList_of_mem (l : List Obj) (c : Obj) (hc : c ∈ l)
    (hm : c.anyMesh = true) : anyMeshList l = true := by
  induction l with
  | nil => cases hc
  | cons x xs ih =>
    rw [anyMeshList]
    rcases List.mem_cons.mp hc with rfl | hmem
    · rw [hm]
      rfl
    · rw [ih hmem]
      exact Bool.or_true _

mutual
theorem collectMeshParents_anyMesh (parent : Option Obj) (o : Obj)
    (hpar : ∀ p, parent = some p → o.isMesh = true → p.anyMesh = true) :
    ∀ q ∈ collectMeshParents parent o, q.anyMesh = true := by
  cases o with
  | node u n m cs =>
    intro q hq
    rw [collectMeshParents.eq_def] at hq
    dsimp only at hq
    rcases List.mem_append.mp hq with h1 | h2
    · cases parent with
      | none => simp at h1
      | some p =>
        rcases hm : m with _ | _
        · rw [hm] at h1
          simp at h1
        · rw [hm] at h1
          have hqp : q = p := by simpa using h1
          rw [hqp]
          exact hpar p rfl (by rw [Obj.isMesh, hm])
    · refine collectMeshParentsList_anyMesh (some (.node u n m cs)) cs ?_ q h2
      intro p hp c hc hcm
      cases hp
      rw [Obj.anyMesh, anyMeshList_of_mem cs c hc (isMesh_anyMesh c hcm)]
      exact Bool.or_true _

theorem collectMeshParentsList_anyMesh (parent : Option Obj) (l : List Obj)
    (hpar : ∀ p, parent = some p → ∀ c ∈ l, c.isMesh = true → p.anyMesh = true) :
    ∀ q ∈ collectMeshParentsList parent l, q.anyMesh = true := by
  cases l with
  | nil =>
    intro q hq
    rw [collectMeshParentsList.eq_def] at hq
    dsimp only at hq
    cases hq
  | cons c cs =>
    intro q hq
    rw [collectMeshParentsList.eq_def] at hq
    dsimp only at hq
    rcases List.mem_append.mp hq with h1 | h2
    · exact collectMeshParents_anyMesh parent c
        (fun p hp hm => hpar p hp c (List.mem_cons_self c cs) hm) q h1
    · exact collectMeshParentsList_anyMesh parent cs
        (fun p hp x hx hm => hpar p hp x (List.mem_cons_of_mem c hx) hm) q h2
end

theorem dedupByUuid_subset (l : List Obj) : ∀ q ∈ dedupByUuid l, q ∈ l := by
  unfold dedupByUuid
  apply foldl_preserve_mem (fun acc : List Obj => ∀ q ∈ acc, q ∈ l)
  · intro q hq
    cases hq
  · intro acc o ho hacc q hq
    by_cases hmem : acc.any (fun q => q.uuid == o.uuid)
    · rw [if_pos hmem] at hq
      exact hacc q hq
    · rw [if_neg hmem] at hq
      rcases List.mem_append.mp hq with h1 | h2
      · exact hacc q h1
      · rw [List.mem_singleton.mp h2]
        exact ho

theorem getUniqueMeshParents_filter (root : Obj) :
    (getUniqueMeshParents root).filter hasMeshDescendant =
      getUniqueMeshParents root := by
  apply List.filter_eq_self.mpr
  intro q hq
  have hsub := dedupByUuid_subset (collectMeshParents none root) q hq
  exact collectMeshParents_anyMesh none root (fun p hp => by cases hp) q hsub

/-- C8: `pickExplosionNodes` implements exactly the adaptive ladder stated by
the claim, and `buildExplosionTargets` replaces an empty final list by the
full mesh-node list. -/
theorem C8_adaptive_ladder :
    (∀ root : Obj, pickExplosionNodes root = pickExplosionNodesSpec root) ∧
    (∀ root : Obj, explosionNodesWithFallback root =
      if (pickExplosionNodesSpec root).isEmpty then getMeshNodes root
      else pickExplosionNodesSpec root) := by
  have h1 : ∀ root : Obj, pickExplosionNodes root = pickExplosionNodesSpec root := by
    intro root
    unfold pickExplosionNodes pickExplosionNodesSpec
    rw [getUniqueMeshParents_filter]
    cases hC : root.children.filter hasMeshDescendant with
    | nil => rfl
    | cons c0 rest =>
      cases rest with
      | nil =>
        dsimp only [List.head?]
        cases hN : c0.children.filter hasMeshDescendant with
        | nil => simp
        | cons x xs => simp
      | cons c1 rest2 => rfl
  refine ⟨h1, ?_⟩
  intro root
  unfold explosionNodesWithFallback
  rw [h1 root]
  cases hs : pickExplosionNodesSpec root with
  | nil => rfl
  | cons a l => rfl

/-- C10: `toggleVisibility` only ever writes `hiddenObjects`; every other
store field is returned unchanged, for every id and every state. -/
theorem C10_toggleVisibility_frame (root : Obj) (id : String) (s : StoreState) :
    (toggleVisibility root id s).isLoading = s.isLoading ∧
    (toggleVisibility root id s).selectedItem = s.selectedItem ∧
    (toggleVisibility root id s).selectedId = s.selectedId ∧
    (toggleVisibility root id s).selectedIds = s.selectedIds ∧
    (toggleVisibility root id s).items = s.items ∧
    (toggleVisibility root id s).isolationMode = s.isolationMode ∧
    (toggleVisibility root id s).individualIsolatedId = s.individualIsolatedId ∧
    (toggleVisibility root id s).explosionFactor = s.explosionFactor := by
  unfold toggleVisibility
  cases h : lookup root id with
  | none => exact ⟨rfl, rfl, rfl, rfl, rfl, rfl, rfl, rfl⟩
  | some p => exact ⟨rfl, rfl, rfl, rfl, rfl, rfl, rfl, rfl⟩

end Viewer
